import Mathlib

/-!
Verification development for the `config-filler` repository.

The definitions below are shallow embeddings of the Python source:
* `src/graph/graph.py` — the `EquipmentGraph` pipeline (combination
  enumerator, reciprocating loop, calculation agent, config update),
* `src/tools/recip_tools.py` — the calculation engine,
* `src/models/model.py` — input validation,
* `src/utils/utils.py` — `save_config_to_file`.

Python strings are modelled as Lean `String` (or `List Char` where
character-level reasoning is needed), Python `dict`s as insertion-ordered
association lists `List (String × _)` with Python `dict.update` semantics,
Python `None` as `Option.none`, and raised exceptions as `Except` errors.
Nondeterministic external calls (the LLM gateway, the file system) are
modelled as explicit oracle parameters.
-/

namespace ConfigFiller

/-! ### Combination enumerator (src/graph/graph.py lines 375-401, 256-262)

`EquipmentGraph.process_next_combination_node` and
`EquipmentGraph.check_has_more_combinations` only read and write the two
state fields `throw_stage_comb : Optional[List[str]]` (the code folds
`None` to `[]` via `state.throw_stage_comb or []`) and
`required_stage_throw : Optional[str]`, so we embed them as pure functions
of those two fields.  Python `list.index` raising `ValueError` is modelled
by the `Option`-valued first-index function `firstIdxOf`. -/

/-- Python `list.index`: index of the first occurrence, `none` when the
element is absent (where CPython raises `ValueError`). -/
def firstIdxOf {α : Type} [DecidableEq α] : List α → α → Option Nat
  | [], _ => none
  | a :: rest, x => if a = x then some 0 else (firstIdxOf rest x).map (· + 1)

/-- `EquipmentGraph.process_next_combination_node` (graph.py 375-389), as a
function from (`throw_stage_comb`, `required_stage_throw`) to the new
`required_stage_throw`.  The `none` branch of the inner match covers both
`current is None` and `current` absent from the list: either way
`combinations.index(current)` raises and the handler picks
`combinations[0]`. -/
def process_next_combination {α : Type} [DecidableEq α]
    (combinations : List α) (current : Option α) : Option α :=
  if combinations.isEmpty then none
  else
    match current.bind (fun c => firstIdxOf combinations c) with
    | some i => if i < combinations.length - 1 then combinations[i+1]? else current
    | none => combinations.head?

/-- `EquipmentGraph.check_has_more_combinations` (graph.py 391-401): returns
the routing label consumed by the conditional edge out of
`update_base_config`. -/
def check_has_more_combinations {α : Type} [DecidableEq α]
    (combinations : List α) (current : Option α) : String :=
  match current.bind (fun c => firstIdxOf combinations c) with
  | some i => if i < combinations.length - 1 then "more_combinations" else "end"
  | none => "end"

/-- The combination-discovery tail of `EquipmentGraph.recip_comp_node`
(graph.py 256-262): `required_stage_throw = combinations[0] if combinations
else None`. -/
def discover_current {α : Type} (combinations : List α) : Option α :=
  combinations.head?

/-- The reciprocating loop of `define_edges` (graph.py 447-459): the body
`create_dict → … → update_base_config` runs, then the conditional edge
applies `check_has_more_combinations`; on `"more_combinations"` the state
goes through `process_next_combination` and the body runs again, on `"end"`
the subgraph terminates.  None of the body nodes writes `throw_stage_comb`
or `required_stage_throw`, so the loop is a function of those two fields.
`recipLoop fuel combos current = some (n, fin)` means the loop terminates
within `fuel` rounds, executing the body (hence `MergeFinalConfig` =
`update_base_config`) exactly `n` times and ending with
`required_stage_throw = fin`; `none` means `fuel` rounds do not reach
termination. -/
def recipLoop {α : Type} [DecidableEq α] :
    Nat → List α → Option α → Option (Nat × Option α)
  | 0, _, _ => none
  | fuel + 1, combos, current =>
    if check_has_more_combinations combos current = "more_combinations" then
      match recipLoop fuel combos (process_next_combination combos current) with
      | some (n, fin) => some (n + 1, fin)
      | none => none
    else
      some (1, current)

/-- The reciprocating loop terminates from the given state, executing the
body `n` times and ending with current combination `fin`. -/
def loopTerminatesWith {α : Type} [DecidableEq α]
    (combos : List α) (current : Option α) (n : Nat) (fin : Option α) : Prop :=
  ∃ fuel, recipLoop fuel combos current = some (n, fin)

/-! ### Python dictionaries

`dict_from_markdown`, `calculation_results` and `constant_params` are
Python `dict`s.  We embed a `dict` as an insertion-ordered association
list; `dictSet` is item assignment `d[k] = v` (replace in place if the key
exists, else append), `dictUpdateAll` is `d.update(other)`, `dictLookup` is
`d.get(k)`. -/

/-- Python dict value: a scalar (string/number stand-in) or a nested dict. -/
inductive PyVal : Type
  | prim (s : String)
  | num (q : ℚ)
  | dict (entries : List (String × PyVal))

/-- Python `d[k] = v` on an association-list dict. -/
def dictSet {β : Type} : List (String × β) → String → β → List (String × β)
  | [], k, v => [(k, v)]
  | (k', v') :: rest, k, v =>
    if k' = k then (k, v) :: rest else (k', v') :: dictSet rest k v

/-- Python `d.update(other)`: item-assign every entry of `other` in order. -/
def dictUpdateAll {β : Type} (m other : List (String × β)) : List (String × β) :=
  other.foldl (fun acc p => dictSet acc p.1 p.2) m

/-- Python `d.get(k)`. -/
def dictLookup {β : Type} (m : List (String × β)) (k : String) : Option β :=
  (m.find? (fun p => p.1 == k)).map Prod.snd

/-! ### Calculation agent (src/graph/graph.py lines 268-326)

`compressor_calculations_agent` iterates over the twelve tools in a fixed
order; for each it asks the LLM to map `dict_from_markdown` to tool
arguments, invokes the tool, and on success merges the result into
`dict_from_markdown` under the tool's name and records the result under the
tool's name in `results`; on any exception it records the string
`"Error: " ++ str(e)` instead and continues.  The LLM chain plus tool
invocation for one tool is a nondeterministic external step; we model it as
an oracle `invoke : String → Except String (List (String × PyVal))` giving
each tool's outcome for this run (the `Except.error` case covers both a
failed argument-mapping chain and a tool raising, e.g. `InvalidInput`). -/

/-- The twelve calculation tools, in the order of the `tools` list
(graph.py 286-299). -/
def toolNames : List String :=
  ["head_end_area", "crank_end_area", "head_end_displacement",
   "crank_end_displacement", "swept_volume", "head_end_clearances",
   "crank_end_clearances", "mean_piston_speed", "he_suction_valve_diameter",
   "he_discharge_valve_diameter", "ce_suction_valve_diameter",
   "ce_discharge_valve_diameter"]

/-- One entry of `calculation_results`: a result mapping or an error
string. -/
inductive CalcEntry : Type
  | res (m : List (String × PyVal))
  | errstr (s : String)

/-- `CalcEntry.errstr` recogniser. -/
def CalcEntry.isErr : CalcEntry → Bool
  | .res _ => false
  | .errstr _ => true

/-- The payload merged into `dict_from_markdown` (graph.py 314-317):
`{key: {"unit": "", "value": value} for key, value in result.items()}`. -/
def toolPayload (result : List (String × PyVal)) : PyVal :=
  .dict (result.map (fun p => (p.1, .dict [("unit", .prim ""), ("value", p.2)])))

/-- The loop body of `compressor_calculations_agent` for one tool
(graph.py 303-321): the accumulator is `(dict_from_markdown, results)`. -/
def calcStep (invoke : String → Except String (List (String × PyVal)))
    (acc : List (String × PyVal) × List (String × CalcEntry)) (toolName : String) :
    List (String × PyVal) × List (String × CalcEntry) :=
  match invoke toolName with
  | .ok r => (dictSet acc.1 toolName (toolPayload r), dictSet acc.2 toolName (.res r))
  | .error e => (acc.1, dictSet acc.2 toolName (.errstr ("Error: " ++ e)))

/-- `compressor_calculations_agent` (graph.py 268-326) as a function of the
per-tool outcome oracle and the incoming `dict_from_markdown`; returns the
updated `dict_from_markdown` and `calculation_results`. -/
def compressor_calculations_agent
    (invoke : String → Except String (List (String × PyVal)))
    (record : List (String × PyVal)) :
    List (String × PyVal) × List (String × CalcEntry) :=
  toolNames.foldl (calcStep invoke) (record, [])

/-- The `calculation_results` entry produced for one tool. -/
def calcEntryOf (invoke : String → Except String (List (String × PyVal)))
    (t : String) : CalcEntry :=
  match invoke t with
  | .ok r => .res r
  | .error e => .errstr ("Error: " ++ e)

/-! ### `create_dict_node` record assembly (src/graph/graph.py 165-178)

After the LLM extraction is validated, `create_dict_node` executes
`final_dict = validated_response.data`, then
`final_dict.update(self.validator.constant_params)`, then
`state.dict_from_markdown = final_dict`: the previous `dict_from_markdown`
(including any merged calculation payloads from an earlier combination) is
*not* consulted. -/

/-- The new `dict_from_markdown` computed by `create_dict_node` from the
fresh extraction, the caller's constant parameters, and the record from the
previous iteration (which the code ignores — it rebinds the field). -/
def create_dict_record (extraction constants : List (String × PyVal))
    (_oldRecord : List (String × PyVal)) : List (String × PyVal) :=
  dictUpdateAll extraction constants

/-- A concrete outcome oracle used by witnesses: `crank_end_area` fails
(zero rod/bore style precondition violation), every other tool returns an
empty result mapping. -/
def witnessInvoke : String → Except String (List (String × PyVal)) :=
  fun t =>
    if t = "crank_end_area" then .error "Rod diameter must be less than bore diameter"
    else .ok []

/-! ### Calculation engine (src/tools/recip_tools.py)

Python floats are modelled as exact rationals; `math.pi` is the exact
rational value of the IEEE-754 double constant the Python runtime uses.
A raised `ValueError` (the spec's `InvalidInput`) is an `Except.error`.
The `isinstance` checks always pass for numeric inputs and are therefore
absorbed by the typing of the embedding. -/

/-- `math.pi` as an exact rational: the IEEE-754 double closest to π. -/
def mathPi : ℚ := 884279719003555 / 281474976710656

/-- `InvalidInput`: precondition violation raised by a calculation-engine
function (a Python `ValueError` with the given message). -/
inductive CalcError : Type
  | invalidInput (msg : String)

/-- `crank_end_area` (recip_tools.py 27-48). -/
def crank_end_area (bore_dia_in rod_dia_in : ℚ) :
    Except CalcError (List (String × ℚ)) :=
  if bore_dia_in ≤ 0 ∨ rod_dia_in ≤ 0 then
    .error (.invalidInput "Bore and rod diameters must be positive")
  else if rod_dia_in ≥ bore_dia_in then
    .error (.invalidInput "Rod diameter must be less than bore diameter")
  else
    .ok [("crank_end_area", (mathPi / 4) * (bore_dia_in ^ 2 - rod_dia_in ^ 2))]

/-! ### Input validation (src/models/model.py 64-82, src/main.py 36-51)

`InputDataValidator.validate_constant_params` runs when the caller
constructs the validator — in `run_equipment_graph` this happens inside a
`try` *before* `EquipmentGraph` is created or invoked, so a validation
failure returns an error with no pipeline node executed.  `constant_params`
values are arbitrary payloads checked with
`isinstance(value[key], dict) and "value" in value[key]`. -/

/-- The four required constant-parameter keys for reciprocating
compressors (model.py 71-76), in source order. -/
def requiredRecipKeys : List String :=
  ["he_suction_valve_quantity", "he_discharge_valve_quantity",
   "ce_suction_valve_quantity", "ce_discharge_valve_quantity"]

/-- `isinstance(v, dict) and "value" in v` (model.py 80). -/
def hasValueEntry : PyVal → Bool
  | .dict entries => (dictLookup entries "value").isSome
  | _ => false

/-- The `for key in required_keys` loop of `validate_constant_params`
(model.py 77-81): first missing key raises "Missing required constant
parameter", first malformed value raises "Invalid format for constant
parameter". -/
def checkRequiredKeys (value : List (String × PyVal)) :
    List String → Except String (List (String × PyVal))
  | [] => .ok value
  | k :: ks =>
    match dictLookup value k with
    | none => .error ("Missing required constant parameter: " ++ k)
    | some v =>
      if hasValueEntry v then checkRequiredKeys value ks
      else .error ("Invalid format for constant parameter: " ++ k)

/-- Python `str.lower()` (ASCII), at character level. -/
def pyLower (s : List Char) : List Char :=
  s.map Char.toLower

/-- `InputDataValidator.validate_constant_params` (model.py 64-82); the
equipment name is handled at character level so that `lower()` stays
kernel-computable. -/
def validate_constant_params (equipment_name : List Char)
    (value : List (String × PyVal)) : Except String (List (String × PyVal)) :=
  if pyLower equipment_name = "reciprocating compressor".toList then
    checkRequiredKeys value requiredRecipKeys
  else .ok value

/-- The validate-then-run structure of `run_equipment_graph`
(main.py 36-51): the validator is constructed — running
`validate_constant_params` — before the graph is built or invoked, so a
validation error is returned with the pipeline (abstracted as an arbitrary
function of the validated parameters) never applied. -/
def run_with_validation {ρ : Type} (equipment_name : List Char)
    (constant_params : List (String × PyVal))
    (pipeline : List (String × PyVal) → ρ) : Except String ρ :=
  match validate_constant_params equipment_name constant_params with
  | .error e => .error e
  | .ok v => .ok (pipeline v)

/-! ### File names and persistence (graph.py 364-370, utils.py 83-101)

Strings are handled at character level here because the claims are about
`str.replace`. -/

/-- Python `str.replace(old, new)` on character lists: replace every
non-overlapping occurrence of `old` scanning left to right (Python returns
the string unchanged when `old` does not occur; the degenerate empty-`old`
case is never exercised by the source). -/
def pyReplace (old new : List Char) : List Char → List Char
  | [] => []
  | c :: rest =>
    if h : old ≠ [] ∧ old.isPrefixOf (c :: rest) then
      new ++ pyReplace old new ((c :: rest).drop old.length)
    else
      c :: pyReplace old new rest
termination_by s => s.length
decreasing_by
  · have hlen : 0 < old.length := List.length_pos.mpr h.1
    simp only [List.length_drop, List.length_cons]
    omega
  · simp

/-- The file name computed by `update_base_config_node` (graph.py 365-369):
`state.required_stage_throw.replace("->", "_").replace(" ", "_")` when a
combination is current (Python truthiness: a `None` or empty current
combination falls back to `"default"`). -/
def combinationFileName (required_stage_throw : Option (List Char)) : List Char :=
  match required_stage_throw with
  | some s =>
    if s = [] then "default".toList
    else pyReplace [' '] ['_'] (pyReplace ['-', '>'] ['_'] s)
  | none => "default".toList

/-- The base file name used by `save_config_to_file` (utils.py 87) before
joining with the output directory: `f"config_{filename}.json"` written
without braces as `"config_" ++ filename ++ ".json"`. -/
def configFileName (filename : List Char) : List Char :=
  "config_".toList ++ filename ++ ".json".toList

/-- The argument `final_config : Any`: either a Python `str` (subject to
the `json.loads` probe) or any other object handed to `json.dump`. -/
inductive ConfigArg : Type
  | strArg (s : List Char)
  | objArg (v : PyVal)

/-- What one `save_config_to_file` call did (when it did not raise). -/
inductive SaveOutcome : Type
  | wroteJson (path : List Char)
  | wroteRaw (path : List Char) (text : List Char)
  | loggedError (path : List Char)

/-- The body of the `try` block of `save_config_to_file` (utils.py 88-101):
`jsonParse` models `json.loads` on strings, `writeError` is the outcome of
the open/write/`json.dump` I-O; every exception here is caught by the
`except` handler, which only prints, so this always produces a
`SaveOutcome`. -/
def saveTryBody (jsonParse : List Char → Option PyVal) (writeError : Option String)
    (final_config : ConfigArg) (filename : List Char) : SaveOutcome :=
  match final_config with
  | .strArg s =>
    match jsonParse s with
    | none =>
      match writeError with
      | some _ => .loggedError (configFileName filename)
      | none => .wroteRaw (configFileName filename) s
    | some _ =>
      match writeError with
      | some _ => .loggedError (configFileName filename)
      | none => .wroteJson (configFileName filename)
  | .objArg _ =>
    match writeError with
    | some _ => .loggedError (configFileName filename)
    | none => .wroteJson (configFileName filename)

/-- `save_config_to_file` (utils.py 83-101).  `mkdirError` is the outcome
of `os.makedirs` (line 86), which sits *before* the `try`, so its error
propagates (`Except.error`); the rest of the function is the guarded
`try` body. -/
def save_config_to_file (jsonParse : List Char → Option PyVal)
    (mkdirError writeError : Option String)
    (final_config : ConfigArg) (filename : List Char) : Except String SaveOutcome :=
  match mkdirError with
  | some e => .error e
  | none => .ok (saveTryBody jsonParse writeError final_config filename)

/-! #### Basic facts about `firstIdxOf` -/

theorem firstIdxOf_lt_length {α : Type} [DecidableEq α] {l : List α} {x : α} :
    ∀ {i : Nat}, firstIdxOf l x = some i → i < l.length := by
  induction l with
  | nil => intro i h; simp [firstIdxOf] at h
  | cons a rest ih =>
    intro i h
    rw [firstIdxOf] at h
    split at h
    · cases h
      simp
    · rw [Option.map_eq_some'] at h
      obtain ⟨j, hj, rfl⟩ := h
      have := ih hj
      simp only [List.length_cons]
      omega

theorem firstIdxOf_getElem? {α : Type} [DecidableEq α] {l : List α} {x : α} :
    ∀ {i : Nat}, firstIdxOf l x = some i → l[i]? = some x := by
  induction l with
  | nil => intro i h; simp [firstIdxOf] at h
  | cons a rest ih =>
    intro i h
    by_cases hax : a = x
    · simp [firstIdxOf, hax] at h
      subst h
      simp [hax]
    · simp only [firstIdxOf, if_neg hax, Option.map_eq_some'] at h
      obtain ⟨j, hj, rfl⟩ := h
      simpa using ih hj

theorem firstIdxOf_isSome_of_mem {α : Type} [DecidableEq α] {l : List α} {x : α}
    (h : x ∈ l) : (firstIdxOf l x).isSome := by
  induction l with
  | nil => simp at h
  | cons a rest ih =>
    by_cases hax : a = x
    · simp [firstIdxOf, hax]
    · rcases List.mem_cons.mp h with h' | h'
      · exact absurd h'.symm hax
      · have := ih h'
        simp only [firstIdxOf, if_neg hax]
        cases hfi : firstIdxOf rest x with
        | none => rw [hfi] at this; simp at this
        | some j => simp

theorem firstIdxOf_getElem_of_nodup {α : Type} [DecidableEq α] {l : List α}
    (hnd : l.Nodup) : ∀ (k : Nat) (hk : k < l.length), firstIdxOf l l[k] = some k := by
  induction l with
  | nil => intro k hk; simp at hk
  | cons a rest ih =>
    intro k hk
    obtain ⟨ha, hrest⟩ := List.nodup_cons.mp hnd
    rcases k with _ | k
    · simp [firstIdxOf]
    · have hk' : k < rest.length := by simpa using hk
      have hget : (a :: rest)[k+1] = rest[k] := by simp
      have hne : a ≠ rest[k] := fun h => ha (h ▸ List.getElem_mem hk')
      rw [hget, firstIdxOf, if_neg hne, ih hrest k hk']
      rfl

/-! #### Reduction lemmas for the enumerator functions -/

theorem process_next_combination_of_idx {α : Type} [DecidableEq α]
    {combinations : List α} {current : Option α} {i : Nat}
    (hne : ¬ combinations.isEmpty)
    (hb : current.bind (fun c => firstIdxOf combinations c) = some i) :
    process_next_combination combinations current =
      if i < combinations.length - 1 then combinations[i+1]? else current := by
  rw [process_next_combination, if_neg hne, hb]

theorem process_next_combination_of_noidx {α : Type} [DecidableEq α]
    {combinations : List α} {current : Option α}
    (hne : ¬ combinations.isEmpty)
    (hb : current.bind (fun c => firstIdxOf combinations c) = none) :
    process_next_combination combinations current = combinations.head? := by
  rw [process_next_combination, if_neg hne, hb]

theorem check_has_more_combinations_of_idx {α : Type} [DecidableEq α]
    {combinations : List α} {current : Option α} {i : Nat}
    (hb : current.bind (fun c => firstIdxOf combinations c) = some i) :
    check_has_more_combinations combinations current =
      if i < combinations.length - 1 then "more_combinations" else "end" := by
  rw [check_has_more_combinations, hb]

theorem check_has_more_combinations_of_noidx {α : Type} [DecidableEq α]
    {combinations : List α} {current : Option α}
    (hb : current.bind (fun c => firstIdxOf combinations c) = none) :
    check_has_more_combinations combinations current = "end" := by
  rw [check_has_more_combinations, hb]

/-! #### C1: behaviour of `advance` (`process_next_combination_node`) -/

/-- C1 counterexample: the claim says `advance` returns null when `current`
is the last element of `combinations`, but `process_next_combination_node`
leaves `required_stage_throw` unchanged there: on the one-element list it
returns the element itself, not null. -/
theorem C1_counterexample :
    process_next_combination ["stage 1->throw 1"] (some "stage 1->throw 1") ≠ none := by
  decide

/-- C1 (amended): `advance(combinations, current)` returns the element
immediately following the first occurrence of `current` when `current`
occurs at a non-last position; it returns null exactly when `combinations`
is empty; when `current` is at the last position it returns `current`
unchanged; and when `current` is null or not an element of a non-empty
`combinations` it returns the first element. -/
theorem C1_advance_characterization {α : Type} [DecidableEq α]
    (combinations : List α) (current : Option α) :
    (combinations = [] → process_next_combination combinations current = none) ∧
    (∀ c i, current = some c → firstIdxOf combinations c = some i →
      i + 1 < combinations.length →
      process_next_combination combinations current = combinations[i+1]?) ∧
    (∀ c i, current = some c → firstIdxOf combinations c = some i →
      i + 1 = combinations.length →
      process_next_combination combinations current = some c) ∧
    (combinations ≠ [] → current.bind (fun c => firstIdxOf combinations c) = none →
      process_next_combination combinations current = combinations.head?) := by
  refine ⟨?_, ?_, ?_, ?_⟩
  · rintro rfl
    simp [process_next_combination]
  · rintro c i rfl hidx hlt
    have hne : ¬ combinations.isEmpty := by
      cases combinations <;> simp_all
    rw [process_next_combination_of_idx hne (by simpa using hidx), if_pos (by omega)]
  · rintro c i rfl hidx hlast
    have hne : ¬ combinations.isEmpty := by
      cases combinations <;> simp_all
    have hi := firstIdxOf_lt_length hidx
    rw [process_next_combination_of_idx hne (by simpa using hidx), if_neg (by omega)]
  · intro hne hnone
    have hne' : ¬ combinations.isEmpty := by
      cases combinations <;> simp_all
    exact process_next_combination_of_noidx hne' hnone

/-- Witness for `C1_advance_characterization` at a concrete input: on
`["a", "b"]` with current `"a"` (index 0, non-last) the next combination is
`"b"`. -/
theorem C1_advance_characterization_witness :
    process_next_combination ["a", "b"] (some "a") = ["a", "b"][0+1]? :=
  (C1_advance_characterization ["a", "b"] (some "a")).2.1 "a" 0 rfl (by decide) (by decide)

/-! #### C2: `hasMore` versus `advance` -/

/-- C2 counterexample: with `combinations = ["stage 1->throw 1",
"stage 1->throw 2"]` and `current` its last element, `hasMore` is false
(`check_has_more_combinations` routes to `"end"`), yet `advance`
(`process_next_combination_node`) returns a non-null value, refuting
"hasMore is true iff advance would return non-null". -/
theorem C2_counterexample :
    check_has_more_combinations ["stage 1->throw 1", "stage 1->throw 2"]
        (some "stage 1->throw 2") = "end" ∧
    process_next_combination ["stage 1->throw 1", "stage 1->throw 2"]
        (some "stage 1->throw 2") ≠ none := by
  constructor
  · decide
  · decide

/-- `process_next_combination` yields null exactly on the empty list. -/
theorem process_next_combination_eq_none_iff {α : Type} [DecidableEq α]
    (combinations : List α) (current : Option α) :
    process_next_combination combinations current = none ↔ combinations = [] := by
  constructor
  · intro h
    by_contra hne
    have hempty : ¬ combinations.isEmpty := by
      cases combinations <;> simp_all
    cases hb : current.bind (fun c => firstIdxOf combinations c) with
    | none =>
      rw [process_next_combination_of_noidx hempty hb] at h
      rcases combinations with _ | ⟨a, rest⟩
      · exact hne rfl
      · simp at h
    | some i =>
      rw [process_next_combination_of_idx hempty hb] at h
      have hi : i < combinations.length := by
        cases current with
        | none => simp at hb
        | some c => exact firstIdxOf_lt_length (by simpa using hb)
      by_cases hlt : i < combinations.length - 1
      · rw [if_pos hlt] at h
        rw [List.getElem?_eq_none_iff] at h
        omega
      · rw [if_neg hlt] at h
        cases current with
        | none => simp at hb
        | some c => simp at h
  · rintro rfl
    simp [process_next_combination]

/-- C2 (amended): `hasMore(combinations, current)` is true iff `current`
occurs in `combinations` at an index strictly before the last index,
whereas `advance` returns null iff `combinations` is empty — so the two are
not equivalent on non-empty lists whose current element is last or absent. -/
theorem C2_hasMore_characterization {α : Type} [DecidableEq α]
    (combinations : List α) (current : Option α) :
    (check_has_more_combinations combinations current = "more_combinations" ↔
      ∃ c i, current = some c ∧ firstIdxOf combinations c = some i ∧
        i + 1 < combinations.length) ∧
    (process_next_combination combinations current = none ↔ combinations = []) := by
  constructor
  · cases current with
    | none =>
      rw [check_has_more_combinations_of_noidx (by simp)]
      constructor
      · intro h; exact absurd h (by decide)
      · rintro ⟨c, i, hc, -, -⟩; exact Option.noConfusion hc
    | some c =>
      cases hidx : firstIdxOf combinations c with
      | none =>
        rw [check_has_more_combinations_of_noidx (by simpa using hidx)]
        constructor
        · intro h; exact absurd h (by decide)
        · rintro ⟨c', i', hc, hidx', -⟩
          rw [Option.some_inj] at hc
          subst hc
          rw [hidx] at hidx'
          exact Option.noConfusion hidx'
      | some i =>
        have hi := firstIdxOf_lt_length hidx
        rw [check_has_more_combinations_of_idx (by simpa using hidx)]
        by_cases hlt : i < combinations.length - 1
        · rw [if_pos hlt]
          simp only [true_iff]
          exact ⟨c, i, rfl, hidx, by omega⟩
        · rw [if_neg hlt]
          constructor
          · intro h; exact absurd h (by decide)
          · rintro ⟨c', i', hc, hidx', hlt'⟩
            rw [Option.some_inj] at hc
            subst hc
            rw [hidx] at hidx'
            rw [Option.some_inj] at hidx'
            omega
  · exact process_next_combination_eq_none_iff combinations current

/-! #### C3: termination of the reciprocating loop -/

theorem recipLoop_fixpoint_none {α : Type} [DecidableEq α]
    {combos : List α} {current : Option α}
    (hmore : check_has_more_combinations combos current = "more_combinations")
    (hfix : process_next_combination combos current = current) :
    ∀ fuel, recipLoop fuel combos current = none := by
  intro fuel
  induction fuel with
  | zero => rfl
  | succ n ih => simp [recipLoop, hmore, hfix, ih]

/-- Behaviour of the loop on duplicate-free lists: started at index `k`,
it performs exactly `length - k` body executions and ends with the current
combination at the last element. -/
theorem recipLoop_nodup_from_index {α : Type} [DecidableEq α]
    {combos : List α} (hnd : combos.Nodup) :
    ∀ (m k : Nat) (hk : k < combos.length), m = combos.length - k →
      recipLoop m combos (some combos[k]) = some (m, combos.getLast?) := by
  intro m
  induction m with
  | zero => intro k hk hm; omega
  | succ m ih =>
    intro k hk hm
    have hidx := firstIdxOf_getElem_of_nodup hnd k hk
    have hne : ¬ combos.isEmpty := by
      cases combos
      · simp at hk
      · simp
    by_cases hlast : k < combos.length - 1
    · have hmore : check_has_more_combinations combos (some combos[k]) = "more_combinations" := by
        rw [check_has_more_combinations_of_idx (by simpa using hidx), if_pos hlast]
      have hk1 : k + 1 < combos.length := by omega
      have hadv : process_next_combination combos (some combos[k]) = some combos[k+1] := by
        rw [process_next_combination_of_idx hne (by simpa using hidx), if_pos hlast,
          List.getElem?_eq_getElem hk1]
      rw [recipLoop, if_pos hmore, hadv, ih (k+1) hk1 (by omega)]
    · have hend : check_has_more_combinations combos (some combos[k]) = "end" := by
        rw [check_has_more_combinations_of_idx (by simpa using hidx), if_neg hlast]
      have hm0 : m = 0 := by omega
      subst hm0
      rw [recipLoop, if_neg (by rw [hend]; decide)]
      have hkl : k = combos.length - 1 := by omega
      subst hkl
      rw [List.getLast?_eq_getElem?, List.getElem?_eq_getElem hk]

/-- C3 counterexample: the claim quantifies over *every* discovered
combinations sequence, but on a sequence with a duplicated element the loop
never terminates: `check_has_more_combinations` keeps answering
`"more_combinations"` while `process_next_combination` keeps returning the
same element, so no fuel suffices. -/
theorem C3_counterexample :
    ¬ ∃ n fin, loopTerminatesWith ["stage 1->throw 1", "stage 1->throw 1"]
        (discover_current ["stage 1->throw 1", "stage 1->throw 1"]) n fin := by
  rintro ⟨n, fin, fuel, h⟩
  rw [recipLoop_fixpoint_none (by decide) (by decide) fuel] at h
  exact Option.noConfusion h

/-- C3 (amended): for every *duplicate-free* discovered combinations
sequence the reciprocating loop terminates: with a non-empty sequence of
length `n`, starting from its first element, the loop body ending in
`MergeFinalConfig` (`update_base_config`) executes exactly `n` times, and
with an empty sequence the current combination stays null and the body
executes exactly once; with a duplicated element the loop need not
terminate. -/
theorem C3_loop_termination {α : Type} [DecidableEq α]
    (combos : List α) (hnd : combos.Nodup) :
    (combos = [] →
      recipLoop 1 combos (discover_current combos) = some (1, none)) ∧
    (combos ≠ [] →
      loopTerminatesWith combos (discover_current combos) combos.length combos.getLast?) := by
  constructor
  · rintro rfl
    have hend : check_has_more_combinations ([] : List α) none = "end" :=
      check_has_more_combinations_of_noidx (by simp)
    show recipLoop 1 [] none = some (1, none)
    rw [recipLoop, if_neg (by rw [hend]; decide)]
  · intro hne
    refine ⟨combos.length, ?_⟩
    have h0 : 0 < combos.length := List.length_pos.mpr hne
    have hhead : discover_current combos = some combos[0] := by
      cases combos
      · simp at h0
      · rfl
    rw [hhead]
    simpa using recipLoop_nodup_from_index hnd combos.length 0 h0 (by omega)

/-- Witness for `C3_loop_termination` on the concrete duplicate-free
three-element sequence of the spec's test property: the loop body runs
exactly 3 times. -/
theorem C3_loop_termination_witness :
    loopTerminatesWith ["stage 1->throw 1", "stage 1->throw 3", "stage 2->throw 4"]
      (discover_current ["stage 1->throw 1", "stage 1->throw 3", "stage 2->throw 4"]) 3
      (["stage 1->throw 1", "stage 1->throw 3", "stage 2->throw 4"].getLast?) := by
  have h := (C3_loop_termination
      ["stage 1->throw 1", "stage 1->throw 3", "stage 2->throw 4"] (by decide)).2
      (by decide)
  simpa using h

/-! #### C5: the current-combination invariant -/

/-- C5 counterexample: the claim says that after the reciprocating loop
terminates on the last combination, `currentCombination` is null; in the
code, on the one-element list the loop terminates after one body execution
with `required_stage_throw` still equal to that element, not null. -/
theorem C5_counterexample :
    recipLoop 1 ["stage 1->throw 1"] (discover_current ["stage 1->throw 1"]) =
      some (1, some "stage 1->throw 1") := by
  decide

/-- C5 (amended): after combination discovery, `currentCombination` is null
iff `combinations` is empty; for non-empty `combinations` every
`process_next_combination` step keeps it non-null, and on a duplicate-free
non-empty sequence the loop terminates with `currentCombination` equal to
the *last* combination — a non-null value — rather than null. -/
theorem C5_current_combination_invariant {α : Type} [DecidableEq α]
    (combos : List α) (hnd : combos.Nodup) :
    (discover_current combos = none ↔ combos = []) ∧
    (∀ current, combos ≠ [] → process_next_combination combos current ≠ none) ∧
    (combos ≠ [] →
      loopTerminatesWith combos (discover_current combos) combos.length combos.getLast? ∧
      combos.getLast? ≠ none) := by
  refine ⟨?_, ?_, ?_⟩
  · simp [discover_current, List.head?_eq_none_iff]
  · intro current hne hcontra
    exact hne ((process_next_combination_eq_none_iff combos current).mp hcontra)
  · intro hne
    constructor
    · refine ⟨combos.length, ?_⟩
      have h0 : 0 < combos.length := List.length_pos.mpr hne
      have hhead : discover_current combos = some combos[0] := by
        cases combos
        · simp at h0
        · rfl
      rw [hhead]
      simpa using recipLoop_nodup_from_index hnd combos.length 0 h0 (by omega)
    · rw [List.getLast?_eq_getElem?]
      have h0 : 0 < combos.length := List.length_pos.mpr hne
      rw [List.getElem?_eq_getElem (by omega)]
      exact Option.noConfusion

/-- Witness for `C5_current_combination_invariant` on a two-element
sequence: the loop ends with the last combination current, not null. -/
theorem C5_current_combination_invariant_witness :
    loopTerminatesWith ["stage 1->throw 1", "stage 1->throw 2"]
      (discover_current ["stage 1->throw 1", "stage 1->throw 2"]) 2
      (["stage 1->throw 1", "stage 1->throw 2"].getLast?) ∧
    (["stage 1->throw 1", "stage 1->throw 2"].getLast? : Option String) ≠ none :=
  (C5_current_combination_invariant ["stage 1->throw 1", "stage 1->throw 2"]
    (by decide)).2.2 (by decide)

/-! #### Dictionary lemmas -/

theorem dictLookup_nil {β : Type} (k : String) :
    dictLookup ([] : List (String × β)) k = none := rfl

theorem dictLookup_cons {β : Type} (k' : String) (v' : β) (rest : List (String × β))
    (k : String) :
    dictLookup ((k', v') :: rest) k =
      if k' = k then some v' else dictLookup rest k := by
  simp only [dictLookup, List.find?]
  by_cases h : k' = k
  · simp [h]
  · simp [h, beq_eq_false_iff_ne.mpr h]

theorem dictSet_eq_append {β : Type} {m : List (String × β)} {k : String} (v : β)
    (h : dictLookup m k = none) : dictSet m k v = m ++ [(k, v)] := by
  induction m with
  | nil => rfl
  | cons p rest ih =>
    obtain ⟨k', v'⟩ := p
    rw [dictLookup_cons] at h
    by_cases hk : k' = k
    · rw [if_pos hk] at h
      exact Option.noConfusion h
    · rw [if_neg hk] at h
      rw [dictSet, if_neg hk, ih h]
      rfl

theorem dictLookup_append_singleton_ne {β : Type} {m : List (String × β)}
    {k' k : String} (v : β) (h : dictLookup m k' = none) (hne : k' ≠ k) :
    dictLookup (m ++ [(k, v)]) k' = none := by
  induction m with
  | nil =>
    rw [List.nil_append, dictLookup_cons, if_neg (fun h => hne h.symm), dictLookup_nil]
  | cons p rest ih =>
    obtain ⟨k'', v''⟩ := p
    rw [dictLookup_cons] at h
    by_cases hk : k'' = k'
    · rw [if_pos hk] at h
      exact Option.noConfusion h
    · rw [if_neg hk] at h
      rw [List.cons_append, dictLookup_cons, if_neg hk]
      exact ih h

theorem dictLookup_dictSet_self {β : Type} (m : List (String × β)) (k : String) (v : β) :
    dictLookup (dictSet m k v) k = some v := by
  induction m with
  | nil => simp [dictSet, dictLookup_cons]
  | cons p rest ih =>
    obtain ⟨k', v'⟩ := p
    by_cases hk : k' = k
    · rw [dictSet, if_pos hk, dictLookup_cons, if_pos rfl]
    · rw [dictSet, if_neg hk, dictLookup_cons, if_neg hk]
      exact ih

theorem dictLookup_dictSet_ne {β : Type} (m : List (String × β)) {k k' : String} (v : β)
    (hne : k' ≠ k) : dictLookup (dictSet m k v) k' = dictLookup m k' := by
  induction m with
  | nil =>
    show dictLookup [(k, v)] k' = dictLookup [] k'
    rw [dictLookup_cons, if_neg (fun h => hne h.symm)]
  | cons p rest ih =>
    obtain ⟨k'', v''⟩ := p
    by_cases hk : k'' = k
    · rw [dictSet, if_pos hk, dictLookup_cons, dictLookup_cons]
      rw [if_neg (fun h => hne h.symm), hk, if_neg (fun h => hne h.symm)]
    · rw [dictSet, if_neg hk, dictLookup_cons, dictLookup_cons, ih]

theorem dictLookup_map_pair {β : Type} (f : String → β) :
    ∀ (l : List String) (t : String), t ∈ l →
      dictLookup (l.map (fun t => (t, f t))) t = some (f t) := by
  intro l
  induction l with
  | nil => intro t ht; simp at ht
  | cons a rest ih =>
    intro t ht
    rw [List.map_cons, dictLookup_cons]
    by_cases hat : a = t
    · rw [if_pos hat, hat]
    · rw [if_neg hat]
      exact ih t (by rcases List.mem_cons.mp ht with h | h; exact absurd h.symm hat; exact h)

/-! #### Behaviour of the calculation fold -/

theorem calcStep_snd (invoke : String → Except String (List (String × PyVal)))
    (acc : List (String × PyVal) × List (String × CalcEntry)) (t : String) :
    (calcStep invoke acc t).2 = dictSet acc.2 t (calcEntryOf invoke t) := by
  rw [calcStep, calcEntryOf]
  cases invoke t <;> rfl

theorem calcStep_eq_ok (invoke : String → Except String (List (String × PyVal)))
    (rec : List (String × PyVal)) (res : List (String × CalcEntry)) (t : String)
    {r : List (String × PyVal)} (hinv : invoke t = .ok r) :
    calcStep invoke (rec, res) t =
      (dictSet rec t (toolPayload r), dictSet res t (.res r)) := by
  rw [calcStep, hinv]

theorem calcStep_eq_error (invoke : String → Except String (List (String × PyVal)))
    (rec : List (String × PyVal)) (res : List (String × CalcEntry)) (t : String)
    {e : String} (hinv : invoke t = .error e) :
    calcStep invoke (rec, res) t =
      (rec, dictSet res t (.errstr ("Error: " ++ e))) := by
  rw [calcStep, hinv]

theorem calc_foldl_results (invoke : String → Except String (List (String × PyVal))) :
    ∀ (l : List String), l.Nodup →
      ∀ (rec : List (String × PyVal)) (res : List (String × CalcEntry)),
        (∀ t ∈ l, dictLookup res t = none) →
        (l.foldl (calcStep invoke) (rec, res)).2 =
          res ++ l.map (fun t => (t, calcEntryOf invoke t)) := by
  intro l
  induction l with
  | nil => intro _ rec res _; simp
  | cons t rest ih =>
    intro hnd rec res hfresh
    obtain ⟨ht, hnd'⟩ := List.nodup_cons.mp hnd
    rw [List.foldl_cons]
    have hstep2 : (calcStep invoke (rec, res) t).2 =
        res ++ [(t, calcEntryOf invoke t)] := by
      rw [calcStep_snd, dictSet_eq_append _ (hfresh t (List.mem_cons_self t rest))]
    have hfresh' : ∀ t' ∈ rest, dictLookup (res ++ [(t, calcEntryOf invoke t)]) t' = none := by
      intro t' ht'
      exact dictLookup_append_singleton_ne _ (hfresh t' (List.mem_cons_of_mem t ht'))
        (fun h => ht (h ▸ ht'))
    have := ih hnd' (calcStep invoke (rec, res) t).1 (res ++ [(t, calcEntryOf invoke t)]) hfresh'
    calc (rest.foldl (calcStep invoke) (calcStep invoke (rec, res) t)).2
        = (rest.foldl (calcStep invoke)
            ((calcStep invoke (rec, res) t).1, res ++ [(t, calcEntryOf invoke t)])).2 := by
          rw [← hstep2]
      _ = res ++ (t :: rest).map (fun t => (t, calcEntryOf invoke t)) := by
          rw [this]
          simp

theorem calc_foldl_record_isSome (invoke : String → Except String (List (String × PyVal))) :
    ∀ (l : List String) (rec : List (String × PyVal)) (res : List (String × CalcEntry))
      (k : String), (dictLookup rec k).isSome →
        (dictLookup ((l.foldl (calcStep invoke) (rec, res)).1) k).isSome := by
  intro l
  induction l with
  | nil => intro rec res k h; simpa using h
  | cons t rest ih =>
    intro rec res k h
    rw [List.foldl_cons]
    cases hinv : invoke t with
    | ok r =>
      rw [calcStep_eq_ok invoke rec res t hinv]
      apply ih
      by_cases hk : k = t
      · subst hk
        rw [dictLookup_dictSet_self]
        rfl
      · rw [dictLookup_dictSet_ne _ _ hk]
        exact h
    | error e =>
      rw [calcStep_eq_error invoke rec res t hinv]
      exact ih _ _ _ h

theorem calc_foldl_record_other_keys (invoke : String → Except String (List (String × PyVal))) :
    ∀ (l : List String) (rec : List (String × PyVal)) (res : List (String × CalcEntry))
      (k : String), k ∉ l →
        dictLookup ((l.foldl (calcStep invoke) (rec, res)).1) k = dictLookup rec k := by
  intro l
  induction l with
  | nil => intro rec res k _; rfl
  | cons t rest ih =>
    intro rec res k hk
    have hkt : k ≠ t := fun h => hk (h ▸ List.mem_cons_self t rest)
    have hkrest : k ∉ rest := fun h => hk (List.mem_cons_of_mem t h)
    rw [List.foldl_cons]
    cases hinv : invoke t with
    | ok r =>
      rw [calcStep_eq_ok invoke rec res t hinv, ih _ _ _ hkrest,
        dictLookup_dictSet_ne _ _ hkt]
    | error e =>
      rw [calcStep_eq_error invoke rec res t hinv, ih _ _ _ hkrest]

/-! #### C4: per-function failure isolation in `RunCalculations` -/

/-- C4 (confirmed): if during the calculation loop exactly one of the
twelve tools fails (for any choice of which one), the run does not abort:
`calculation_results` contains all twelve tool names in order, the failing
tool's key maps to the error string `"Error: " ++ message`, every other key
maps to its result mapping, and the counts are exactly 1 error entry and 11
result entries. -/
theorem C4_calculation_failure_isolated
    (invoke : String → Except String (List (String × PyVal)))
    (record : List (String × PyVal)) (t0 e : String)
    (ht0 : t0 ∈ toolNames) (hfail : invoke t0 = .error e)
    (hok : ∀ t ∈ toolNames, t ≠ t0 → ∃ r, invoke t = .ok r) :
    (compressor_calculations_agent invoke record).2 =
        toolNames.map (fun t => (t, calcEntryOf invoke t)) ∧
    (compressor_calculations_agent invoke record).2.map Prod.fst = toolNames ∧
    dictLookup (compressor_calculations_agent invoke record).2 t0 =
        some (.errstr ("Error: " ++ e)) ∧
    (∀ t ∈ toolNames, t ≠ t0 →
      ∃ r, dictLookup (compressor_calculations_agent invoke record).2 t =
        some (.res r)) ∧
    (compressor_calculations_agent invoke record).2.countP (fun p => p.2.isErr) = 1 ∧
    (compressor_calculations_agent invoke record).2.countP (fun p => !p.2.isErr) = 11 := by
  have hnd : toolNames.Nodup := by decide
  have hres : (compressor_calculations_agent invoke record).2 =
      toolNames.map (fun t => (t, calcEntryOf invoke t)) := by
    rw [compressor_calculations_agent]
    exact calc_foldl_results invoke toolNames hnd record [] (fun t _ => rfl)
  have hentry_err : calcEntryOf invoke t0 = .errstr ("Error: " ++ e) := by
    rw [calcEntryOf, hfail]
  have hcount : (compressor_calculations_agent invoke record).2.countP
      (fun p => p.2.isErr) = 1 := by
    rw [hres, List.countP_map]
    have hcongr : ∀ t ∈ toolNames,
        ((fun p : String × CalcEntry => p.2.isErr) ∘ (fun t => (t, calcEntryOf invoke t))) t =
          true ↔ (t == t0) = true := by
      intro t ht
      simp only [Function.comp_apply, beq_iff_eq]
      constructor
      · intro herr
        by_contra hne
        obtain ⟨r, hr⟩ := hok t ht hne
        rw [calcEntryOf, hr] at herr
        exact Bool.noConfusion herr
      · rintro rfl
        rw [hentry_err]
        rfl
    rw [List.countP_congr hcongr]
    have : toolNames.countP (fun t => t == t0) = toolNames.count t0 := rfl
    rw [this, List.count_eq_one_of_mem hnd ht0]
  refine ⟨hres, ?_, ?_, ?_, hcount, ?_⟩
  · rw [hres, List.map_map]
    rfl
  · rw [hres, dictLookup_map_pair _ toolNames t0 ht0, hentry_err]
  · intro t ht hne
    obtain ⟨r, hr⟩ := hok t ht hne
    refine ⟨r, ?_⟩
    rw [hres, dictLookup_map_pair _ toolNames t ht, calcEntryOf, hr]
  · have hlen : (compressor_calculations_agent invoke record).2.length = 12 := by
      rw [hres, List.length_map]
      rfl
    have hsplit : (compressor_calculations_agent invoke record).2.length =
        (compressor_calculations_agent invoke record).2.countP (fun p => p.2.isErr) +
          (compressor_calculations_agent invoke record).2.countP (fun p => !p.2.isErr) := by
      have h := List.length_eq_countP_add_countP (fun p : String × CalcEntry => p.2.isErr)
        (compressor_calculations_agent invoke record).2
      simpa using h
    omega

/-- Witness for `C4_calculation_failure_isolated`: under the concrete
oracle where only `crank_end_area` fails, the results table holds the error
string under `crank_end_area`, one error entry, and eleven result
entries. -/
theorem C4_calculation_failure_isolated_witness :
    dictLookup (compressor_calculations_agent witnessInvoke []).2 "crank_end_area" =
      some (CalcEntry.errstr "Error: Rod diameter must be less than bore diameter") ∧
    (compressor_calculations_agent witnessInvoke []).2.countP (fun p => p.2.isErr) = 1 ∧
    (compressor_calculations_agent witnessInvoke []).2.countP (fun p => !p.2.isErr) = 11 := by
  have h := C4_calculation_failure_isolated witnessInvoke []
      "crank_end_area" "Rod diameter must be less than bore diameter"
      (by decide) (by rfl) ?hok
  case hok =>
    intro t ht hne
    exact ⟨[], by simp [witnessInvoke, hne]⟩
  exact ⟨h.2.2.1, h.2.2.2.2.1, h.2.2.2.2.2⟩

/-! #### C6: the additive-merge frame property of `extractedRecord` -/

/-- C6 counterexample: the claim also asserts the frame property across
loop iterations, but `create_dict_node` of the next combination rebuilds
`dict_from_markdown` from the fresh extraction plus constants, dropping
keys merged by the previous calculation step: a record holding a
calculation payload under `mean_piston_speed` loses that key. -/
theorem C6_counterexample :
    dictLookup [("mean_piston_speed", PyVal.prim "42")] "mean_piston_speed" =
      some (PyVal.prim "42") ∧
    dictLookup (create_dict_record [] []
        [("mean_piston_speed", PyVal.prim "42")]) "mean_piston_speed" = none := by
  exact ⟨rfl, rfl⟩

/-- C6 (amended): within one combination's calculation step the merge is
additive — every key present in `dict_from_markdown` before
`compressor_calculations_agent` is still present afterwards, and any key
other than the twelve tool names keeps its exact value; the frame property
does *not* extend across loop iterations, since `create_dict_node` rebinds
the record from the fresh extraction and the constant parameters only. -/
theorem C6_calculation_merge_additive
    (invoke : String → Except String (List (String × PyVal)))
    (record : List (String × PyVal)) :
    (∀ k, (dictLookup record k).isSome →
      (dictLookup (compressor_calculations_agent invoke record).1 k).isSome) ∧
    (∀ k, k ∉ toolNames →
      dictLookup (compressor_calculations_agent invoke record).1 k =
        dictLookup record k) := by
  constructor
  · intro k h
    exact calc_foldl_record_isSome invoke toolNames record [] k h
  · intro k h
    exact calc_foldl_record_other_keys invoke toolNames record [] k h

/-- Witness for `C6_calculation_merge_additive`: a `bore_dia_in` entry
present before the calculation step is still present afterwards. -/
theorem C6_calculation_merge_additive_witness :
    (dictLookup (compressor_calculations_agent witnessInvoke
        [("bore_dia_in", PyVal.num 5)]).1 "bore_dia_in").isSome = true := by
  exact (C6_calculation_merge_additive witnessInvoke
    [("bore_dia_in", PyVal.num 5)]).1 "bore_dia_in" (by rfl)

/-! #### C7: the `crank_end_area` contract -/

/-- C7 (confirmed): for all inputs with `rod_dia_in >= bore_dia_in`,
`crank_end_area` fails with `InvalidInput` (either the positivity or the
rod-versus-bore message); for `0 < rod_dia_in < bore_dia_in` it returns the
single-key mapping `crank_end_area = π/4 · (bore² − rod²)`. -/
theorem C7_crank_end_area_contract (bore_dia_in rod_dia_in : ℚ) :
    (rod_dia_in ≥ bore_dia_in →
      ∃ msg, crank_end_area bore_dia_in rod_dia_in =
        .error (.invalidInput msg)) ∧
    (0 < rod_dia_in → rod_dia_in < bore_dia_in →
      crank_end_area bore_dia_in rod_dia_in =
        .ok [("crank_end_area", (mathPi / 4) * (bore_dia_in ^ 2 - rod_dia_in ^ 2))]) := by
  constructor
  · intro hge
    rw [crank_end_area]
    by_cases h : bore_dia_in ≤ 0 ∨ rod_dia_in ≤ 0
    · rw [if_pos h]
      exact ⟨_, rfl⟩
    · rw [if_neg h, if_pos hge]
      exact ⟨_, rfl⟩
  · intro h0 hlt
    have hb : ¬(bore_dia_in ≤ 0 ∨ rod_dia_in ≤ 0) := by
      push_neg
      constructor <;> linarith
    rw [crank_end_area, if_neg hb, if_neg (not_le.mpr hlt)]

/-- Witness for `C7_crank_end_area_contract` at bore 2, rod 1. -/
theorem C7_crank_end_area_contract_witness :
    (0 : ℚ) < 1 ∧ (1 : ℚ) < 2 ∧
    crank_end_area 2 1 =
      .ok [("crank_end_area", (mathPi / 4) * ((2 : ℚ) ^ 2 - 1 ^ 2))] :=
  ⟨by norm_num, by norm_num,
    (C7_crank_end_area_contract 2 1).2 (by norm_num) (by norm_num)⟩

/-! #### C8: required constant parameters for reciprocating compressors -/

theorem checkRequiredKeys_ok_iff (value : List (String × PyVal)) (ks : List String) :
    (∃ v', checkRequiredKeys value ks = .ok v') ↔
      ∀ k ∈ ks, ∃ v, dictLookup value k = some v ∧ hasValueEntry v = true := by
  induction ks with
  | nil => simp [checkRequiredKeys]
  | cons k ks ih =>
    cases hlk : dictLookup value k with
    | none =>
      simp only [checkRequiredKeys, hlk]
      constructor
      · rintro ⟨v', hv'⟩
        exact Except.noConfusion hv'
      · intro h
        obtain ⟨v, hv, -⟩ := h k (List.mem_cons_self k ks)
        rw [hlk] at hv
        exact Option.noConfusion hv
    | some v =>
      simp only [checkRequiredKeys, hlk]
      by_cases hval : hasValueEntry v
      · rw [if_pos hval]
        constructor
        · intro h k' hk'
          rcases List.mem_cons.mp hk' with rfl | hk'
          · exact ⟨v, hlk, hval⟩
          · exact (ih.mp h) k' hk'
        · intro h
          exact ih.mpr (fun k' hk' => h k' (List.mem_cons_of_mem k hk'))
      · rw [if_neg hval]
        constructor
        · rintro ⟨v', hv'⟩
          exact Except.noConfusion hv'
        · intro h
          obtain ⟨v'', hv'', hval''⟩ := h k (List.mem_cons_self k ks)
          rw [hlk] at hv''
          rw [Option.some_inj] at hv''
          subst hv''
          exact absurd hval'' (by simpa using hval)

/-- C8 (confirmed): for a reciprocating-compressor run, a constant
parameters mapping missing one of the four required keys, or holding one of
them without a `value` entry inside a mapping, fails validation with an
`InvalidInput`-style error, and `run_equipment_graph` returns that error
with the pipeline never applied; for any equipment name other than
"reciprocating compressor" the validator accepts every mapping. -/
theorem C8_constant_params_validation (constant_params : List (String × PyVal)) :
    (∀ k ∈ requiredRecipKeys, dictLookup constant_params k = none →
      ∃ e, validate_constant_params "reciprocating compressor".toList constant_params =
        .error e) ∧
    (∀ k ∈ requiredRecipKeys, ∀ v, dictLookup constant_params k = some v →
      hasValueEntry v = false →
      ∃ e, validate_constant_params "reciprocating compressor".toList constant_params =
        .error e) ∧
    (∀ e, validate_constant_params "reciprocating compressor".toList constant_params =
        .error e →
      ∀ (ρ : Type) (pipeline : List (String × PyVal) → ρ),
        run_with_validation "reciprocating compressor".toList constant_params pipeline =
          .error e) ∧
    (∀ equipment_name : List Char,
      pyLower equipment_name ≠ "reciprocating compressor".toList →
      validate_constant_params equipment_name constant_params =
        .ok constant_params) := by
  have hrecip : validate_constant_params "reciprocating compressor".toList constant_params =
      checkRequiredKeys constant_params requiredRecipKeys := by
    rw [validate_constant_params, if_pos (by decide)]
  refine ⟨?_, ?_, ?_, ?_⟩
  · intro k hk hnone
    rw [hrecip]
    cases hck : checkRequiredKeys constant_params requiredRecipKeys with
    | error e => exact ⟨e, rfl⟩
    | ok v' =>
      obtain ⟨v, hv, -⟩ :=
        (checkRequiredKeys_ok_iff constant_params requiredRecipKeys).mp ⟨v', hck⟩ k hk
      rw [hnone] at hv
      exact Option.noConfusion hv
  · intro k hk v hsome hbad
    rw [hrecip]
    cases hck : checkRequiredKeys constant_params requiredRecipKeys with
    | error e => exact ⟨e, rfl⟩
    | ok v' =>
      obtain ⟨v'', hv'', hval''⟩ :=
        (checkRequiredKeys_ok_iff constant_params requiredRecipKeys).mp ⟨v', hck⟩ k hk
      rw [hsome] at hv''
      rw [Option.some_inj] at hv''
      subst hv''
      rw [hval''] at hbad
      exact Bool.noConfusion hbad
  · intro e he ρ pipeline
    rw [run_with_validation, he]
  · intro equipment_name hne
    rw [validate_constant_params, if_neg hne]

/-- Witness for `C8_constant_params_validation`: the empty constant
parameters mapping fails for a reciprocating compressor and passes for an
induction motor. -/
theorem C8_constant_params_validation_witness :
    (∃ e, validate_constant_params "reciprocating compressor".toList [] =
      Except.error e) ∧
    validate_constant_params "induction motor".toList [] = Except.ok [] :=
  ⟨(C8_constant_params_validation []).1 "he_suction_valve_quantity" (by decide) rfl,
    (C8_constant_params_validation []).2.2.2 "induction motor".toList (by decide)⟩

/-! #### C9: per-combination file names -/

theorem all_ne_of_all_bne {l : List Char} {x : Char}
    (h : l.all (fun c => c != x) = true) : ∀ c ∈ l, c ≠ x := by
  intro c hc
  simpa using List.all_eq_true.mp h c hc

theorem isDigit_ne_dash_space {c : Char} (h : c.isDigit = true) :
    c ≠ '-' ∧ c ≠ ' ' := by
  constructor <;> rintro rfl <;> exact absurd h (by decide)

/-- `str.replace` leaves a string unchanged when the first character of the
pattern never occurs in it. -/
theorem pyReplace_of_head_notin {o : Char} (os new : List Char) :
    ∀ s : List Char, (∀ c ∈ s, c ≠ o) → pyReplace (o :: os) new s = s := by
  intro s
  induction s with
  | nil => intro _; rw [pyReplace]
  | cons c rest ih =>
    intro h
    have hc : c ≠ o := h c (List.mem_cons_self c rest)
    rw [pyReplace]
    rw [dif_neg ?hcond]
    case hcond =>
      rintro ⟨-, hpre⟩
      simp only [List.isPrefixOf, Bool.and_eq_true, beq_iff_eq] at hpre
      exact hc hpre.1.symm
    rw [ih (fun c' hc' => h c' (List.mem_cons_of_mem c hc'))]

/-- `str.replace` across the first occurrence of the pattern, when the
pattern's first character does not occur before it. -/
theorem pyReplace_boundary {o : Char} (os new : List Char) :
    ∀ (xs ys : List Char), (∀ c ∈ xs, c ≠ o) →
      pyReplace (o :: os) new (xs ++ (o :: os) ++ ys) =
        xs ++ new ++ pyReplace (o :: os) new ys := by
  intro xs
  induction xs with
  | nil =>
    intro ys _
    simp only [List.nil_append]
    rw [show (o :: os) ++ ys = o :: (os ++ ys) from rfl]
    rw [pyReplace]
    rw [dif_pos ?hcond]
    case hcond =>
      refine ⟨List.cons_ne_nil o os, ?_⟩
      rw [show o :: (os ++ ys) = (o :: os) ++ ys from rfl]
      exact List.isPrefixOf_iff_prefix.mpr (List.prefix_append (o :: os) ys)
    rw [show (o :: (os ++ ys)).drop (o :: os).length = ys from by
      simp [List.drop_left]]
  | cons x xs ih =>
    intro ys h
    have hx : x ≠ o := h x (List.mem_cons_self x xs)
    rw [show (x :: xs) ++ (o :: os) ++ ys = x :: (xs ++ (o :: os) ++ ys) from by simp]
    rw [pyReplace]
    rw [dif_neg ?hcond]
    case hcond =>
      rintro ⟨-, hpre⟩
      simp only [List.isPrefixOf, Bool.and_eq_true, beq_iff_eq] at hpre
      exact hx hpre.1.symm
    rw [ih ys (fun c hc => h c (List.mem_cons_of_mem x hc))]
    simp

/-- C9 (confirmed): for every combination identifier of the shape
`"stage {i}->throw {j}"` (`{i}`, `{j}` arbitrary digit strings), the
per-combination artifact file name is `config_stage_{i}_throw_{j}.json` —
`"->"` and spaces become underscores, with prefix `config_` and suffix
`.json` — and with no current combination the name is
`config_default.json`. -/
theorem C9_combination_file_name (di dj : List Char)
    (hdi : ∀ c ∈ di, c.isDigit = true) (hdj : ∀ c ∈ dj, c.isDigit = true) :
    configFileName (combinationFileName
        (some ("stage ".toList ++ di ++ "->throw ".toList ++ dj))) =
      "config_stage_".toList ++ di ++ "_throw_".toList ++ dj ++ ".json".toList ∧
    configFileName (combinationFileName none) = "config_default.json".toList := by
  constructor
  · have hne : ("stage ".toList ++ di ++ "->throw ".toList ++ dj : List Char) ≠ [] := by
      have h : ("stage ".toList : List Char) ≠ [] := by decide
      simp [h]
    rw [combinationFileName]
    rw [if_neg hne]
    have hxs1 : ∀ c ∈ ("stage ".toList ++ di : List Char), c ≠ '-' := by
      intro c hc
      rcases List.mem_append.mp hc with h | h
      · exact all_ne_of_all_bne (by decide) c h
      · exact (isDigit_ne_dash_space (hdi c h)).1
    have hys1 : ∀ c ∈ ("throw ".toList ++ dj : List Char), c ≠ '-' := by
      intro c hc
      rcases List.mem_append.mp hc with h | h
      · exact all_ne_of_all_bne (by decide) c h
      · exact (isDigit_ne_dash_space (hdj c h)).1
    have hS : ("stage ".toList ++ di ++ "->throw ".toList ++ dj : List Char) =
        ("stage ".toList ++ di) ++ ('-' :: ['>']) ++ ("throw ".toList ++ dj) := by
      rw [show ("->throw ".toList : List Char) = '-' :: '>' :: "throw ".toList from rfl]
      simp
    rw [hS, pyReplace_boundary ['>'] ['_'] _ _ hxs1,
      pyReplace_of_head_notin ['>'] ['_'] _ hys1]
    have hxs2 : ∀ c ∈ (di ++ ('_' :: "throw".toList) : List Char), c ≠ ' ' := by
      intro c hc
      rcases List.mem_append.mp hc with h | h
      · exact (isDigit_ne_dash_space (hdi c h)).2
      · exact all_ne_of_all_bne (by decide) c h
    have hdj2 : ∀ c ∈ dj, c ≠ ' ' := fun c h => (isDigit_ne_dash_space (hdj c h)).2
    have hR1 : ((("stage ".toList ++ di) ++ ['_']) ++ ("throw ".toList ++ dj) : List Char) =
        "stage".toList ++ (' ' :: []) ++
          (((di ++ ('_' :: "throw".toList)) ++ (' ' :: [])) ++ dj) := by
      rw [show ("stage ".toList : List Char) = "stage".toList ++ [' '] from by decide,
        show ("throw ".toList : List Char) = "throw".toList ++ [' '] from by decide]
      simp
    rw [hR1, pyReplace_boundary [] ['_'] _ _
      (by exact fun c h => (all_ne_of_all_bne (by decide) c h))]
    rw [pyReplace_boundary [] ['_'] _ _ hxs2, pyReplace_of_head_notin [] ['_'] _ hdj2]
    rw [configFileName]
    rw [show ("config_stage_".toList : List Char) =
        "config_".toList ++ ("stage".toList ++ ['_']) from by decide,
      show ("_throw_".toList : List Char) = ('_' :: "throw".toList) ++ ['_'] from by decide]
    simp
  · decide

/-- Witness for `C9_combination_file_name` on `"stage 1->throw 3"`. -/
theorem C9_combination_file_name_witness :
    configFileName (combinationFileName
        (some ("stage ".toList ++ ['1'] ++ "->throw ".toList ++ ['3']))) =
      "config_stage_".toList ++ ['1'] ++ "_throw_".toList ++ ['3'] ++ ".json".toList :=
  (C9_combination_file_name ['1'] ['3'] (by decide) (by decide)).1

/-! #### C10: `save_config_to_file` failure containment -/

/-- C10 counterexample: `os.makedirs` executes before the `try` block, so
a directory-creation I/O failure propagates out of `save_config_to_file` —
the function is not exception-free for every record and filename. -/
theorem C10_counterexample :
    save_config_to_file (fun _ => none) (some "Permission denied") none
      (ConfigArg.strArg "x".toList) "default".toList =
      Except.error "Permission denied" := rfl

/-- C10 (amended): once the output directory has been created successfully,
`save_config_to_file` never raises: every serialization or write error
inside the `try` block is caught (the call returns a `SaveOutcome`), and a
string argument that is not valid JSON is written verbatim rather than
rejected; only an `os.makedirs` failure — raised before the `try` block —
propagates. -/
theorem C10_save_guarded (jsonParse : List Char → Option PyVal)
    (mkdirError writeError : Option String)
    (cfg : ConfigArg) (fname : List Char) (h : mkdirError = none) :
    (∃ out, save_config_to_file jsonParse mkdirError writeError cfg fname = .ok out) ∧
    (∀ s, cfg = .strArg s → jsonParse s = none → writeError = none →
      save_config_to_file jsonParse mkdirError writeError cfg fname =
        .ok (.wroteRaw (configFileName fname) s)) := by
  subst h
  constructor
  · exact ⟨_, rfl⟩
  · rintro s rfl hparse hw
    subst hw
    show Except.ok (saveTryBody jsonParse none (.strArg s) fname) = _
    have hbody : saveTryBody jsonParse none (.strArg s) fname =
        match jsonParse s with
        | none => SaveOutcome.wroteRaw (configFileName fname) s
        | some _ => SaveOutcome.wroteJson (configFileName fname) := rfl
    rw [hbody, hparse]

/-- Witness for `C10_save_guarded`: a non-JSON string is written verbatim
when directory creation and the write both succeed. -/
theorem C10_save_guarded_witness :
    save_config_to_file (fun _ => none) none none
      (ConfigArg.strArg "not json".toList) "default".toList =
      Except.ok (SaveOutcome.wroteRaw (configFileName "default".toList)
        "not json".toList) :=
  (C10_save_guarded (fun _ => none) none none
    (ConfigArg.strArg "not json".toList) "default".toList rfl).2
    "not json".toList rfl rfl rfl

example : process_next_combination ["a", "b", "c"] (some "a") = some "b" := by decide
example : process_next_combination ["a", "b", "c"] (some "c") = some "c" := by decide
example : process_next_combination ["a", "b", "c"] none = some "a" := by decide
example : process_next_combination ([] : List String) (some "a") = none := by decide
example : check_has_more_combinations ["a", "b"] (some "a") = "more_combinations" := by decide
example : check_has_more_combinations ["a", "b"] (some "b") = "end" := by decide
example : check_has_more_combinations ([] : List String) none = "end" := by decide
example : recipLoop 5 ["a", "b", "c"] (some "a") = some (3, some "c") := by decide
example : recipLoop 1 ([] : List String) none = some (1, none) := by decide
example : recipLoop 5 ["a", "a"] (some "a") = none := by decide

end ConfigFiller
